import Mathlib

/-!
Verification development for the feast feature-store core.

The repository sources under scrutiny are `sdk/python/feast/cli.py` and the
test suite (`online_read_write_test.py`, `test_feature_store.py`,
`test_e2e_local.py`, `cli_utils.py`).  The engine itself (provider online
write/read, registry, feature-store facade, materializer) is exercised by
those tests but its code is not part of the source set, so those parts are
modelled from the specification text and each such definition says so in its
doc comment.  `cli.py` functions (`_get_labels_dict`, `materialize_command`
argument handling) are embedded directly from the source.
-/

namespace Feast

/-- Tagged union of feature values, after `feast.protos.feast.types.Value`:
scalars int64/double/string/bytes/bool and a list variant of each.  A double
is carried as its raw 64-bit pattern, treated opaquely: the online engine
never inspects values, it only stores and returns them. -/
inductive Value where
  | int64Val (v : Int)
  | doubleVal (bits : Nat)
  | stringVal (s : String)
  | bytesVal (b : List Nat)
  | boolVal (b : Bool)
  | int64ListVal (v : List Int)
  | doubleListVal (bits : List Nat)
  | stringListVal (s : List String)
  | bytesListVal (b : List (List Nat))
  | boolListVal (b : List Bool)
deriving DecidableEq, Repr

/-- EntityKey, after `feast.protos.feast.types.EntityKey`: a sequence of
entity names with the corresponding entity values. -/
structure EntityKey where
  entityNames : List String
  entityValues : List Value
deriving DecidableEq, Repr

/-- A row key of the online store: the conflict-resolution unit is
(project, table, EntityKey, feature name). -/
structure RowKey where
  project : String
  table : String
  entityKey : EntityKey
  feature : String
deriving DecidableEq, Repr

/-- The (event_timestamp, created_timestamp) pair used for conflict
resolution.  Timestamps are epoch instants (integers). -/
structure TsPair where
  eventTs : Int
  createdTs : Int
deriving DecidableEq, Repr

/-- Strict lexicographic order on timestamp pairs: event_timestamp primary,
created_timestamp secondary. -/
def TsPair.ltb (a b : TsPair) : Bool :=
  a.eventTs < b.eventTs || (a.eventTs == b.eventTs && a.createdTs < b.createdTs)

/-- The triple retained per row key in the online store. -/
structure StoredValue where
  value : Value
  eventTs : Int
  createdTs : Int
deriving DecidableEq, Repr

/-- Timestamp pair of a stored triple. -/
def StoredValue.tsPair (sv : StoredValue) : TsPair :=
  ⟨sv.eventTs, sv.createdTs⟩

/-- Online store state: at most one stored triple per row key. -/
def OnlineStore : Type := RowKey → Option StoredValue

/-- The empty online store. -/
def emptyStore : OnlineStore := fun _ => none

/-- A write record, after the tuples passed to `online_write_batch` in
`online_read_write_test.py`: (EntityKey, feature-name→Value mapping,
event_timestamp, created_timestamp). -/
structure WriteRecord where
  entityKey : EntityKey
  features : List (String × Value)
  eventTs : Int
  createdTs : Int
deriving DecidableEq, Repr

/-- Timestamp pair of a write record. -/
def WriteRecord.tsPair (r : WriteRecord) : TsPair :=
  ⟨r.eventTs, r.createdTs⟩

/-- Modelled from the spec (§4.2, the provider implementation is not in the
source set): the conflict-resolving upsert for a single candidate against the
currently stored triple of one row key.  The candidate replaces the stored
value iff its (event_timestamp, created_timestamp) pair is strictly greater
in the lexicographic order; a missing stored triple is always replaced. -/
def join (cur : Option StoredValue) (v : Value) (et ct : Int) : Option StoredValue :=
  match cur with
  | none => some ⟨v, et, ct⟩
  | some old => if TsPair.ltb old.tsPair ⟨et, ct⟩ then some ⟨v, et, ct⟩ else some old

/-- Modelled from the spec (§4.2): write one (feature, value) of a record,
touching exactly one row key. -/
def writeOne (proj table : String) (s : OnlineStore) (ek : EntityKey)
    (fn : String) (v : Value) (et ct : Int) : OnlineStore :=
  fun k =>
    if k = ⟨proj, table, ek, fn⟩ then join (s k) v et ct else s k

/-- Modelled from the spec (§4.2): each record's features are resolved
independently, in order; a batch is not applied atomically. -/
def applyRecord (proj table : String) (s : OnlineStore) (r : WriteRecord) : OnlineStore :=
  r.features.foldl
    (fun acc fv => writeOne proj table acc r.entityKey fv.1 fv.2 r.eventTs r.createdTs) s

/-- Modelled from the spec (§4.2): `online_write_batch(project, table, data,
progress)` pushes every record of the batch through the per-feature
conflict-resolving upsert.  The `progress` callback is reporting only and by
the spec never affects write correctness, so it is not part of the state
model. -/
def online_write_batch (proj table : String) (data : List WriteRecord)
    (s : OnlineStore) : OnlineStore :=
  data.foldl (applyRecord proj table) s

/-- Read the stored feature→Value mapping of one entity key, restricted to
the feature names declared by the view. -/
def readRow (proj table : String) (s : OnlineStore) (viewFeatures : List String)
    (ek : EntityKey) : List (String × Value) :=
  viewFeatures.filterMap fun fn =>
    (s ⟨proj, table, ek, fn⟩).map fun sv => (fn, sv.value)

/-- Modelled from the spec (§4.2): `online_read(project, table, entity_keys)`
returns, for each requested EntityKey in the order given, the current stored
feature→Value mapping; an empty mapping (not an error) for a never-written
key. -/
def online_read (proj table : String) (s : OnlineStore) (viewFeatures : List String)
    (entityKeys : List EntityKey) : List (EntityKey × List (String × Value)) :=
  entityKeys.map fun ek => (ek, readRow proj table s viewFeatures ek)

/- Basic order facts about the lexicographic timestamp comparison. -/

theorem TsPair.ltb_irrefl (a : TsPair) : TsPair.ltb a a = false := by
  simp [TsPair.ltb]

theorem TsPair.ltb_asymm {a b : TsPair} (h : TsPair.ltb a b = true) :
    TsPair.ltb b a = false := by
  rcases a with ⟨ae, ac⟩
  rcases b with ⟨be, bc⟩
  simp only [TsPair.ltb, Bool.or_eq_true, Bool.and_eq_true, decide_eq_true_eq,
    beq_iff_eq, Bool.or_eq_false_iff, Bool.and_eq_false_iff,
    decide_eq_false_iff_not, beq_eq_false_iff_ne, ne_eq, not_lt] at h ⊢
  omega

theorem TsPair.ltb_total {a b : TsPair} (hne : a ≠ b)
    (h : TsPair.ltb a b = false) : TsPair.ltb b a = true := by
  rcases a with ⟨ae, ac⟩
  rcases b with ⟨be, bc⟩
  have hne2 : ¬ (ae = be ∧ ac = bc) := by
    intro hc
    exact hne (by rw [hc.1, hc.2])
  simp only [TsPair.ltb, Bool.or_eq_true, Bool.and_eq_true, decide_eq_true_eq,
    beq_iff_eq, Bool.or_eq_false_iff, Bool.and_eq_false_iff,
    decide_eq_false_iff_not, beq_eq_false_iff_ne, ne_eq, not_lt] at h ⊢
  omega

/- Per-key characterization of the write path: the state at one row key is a
fold of the conflict-resolving `join` over the candidates the batch offers
for that key, in batch order. -/

/-- Fold one candidate triple into the current stored triple. -/
def joinCand (c : Option StoredValue) (x : StoredValue) : Option StoredValue :=
  join c x.value x.eventTs x.createdTs

/-- The candidate triples a single record offers for row key `k`. -/
def recCands (proj table : String) (r : WriteRecord) (k : RowKey) : List StoredValue :=
  r.features.filterMap fun fv =>
    if k = (⟨proj, table, r.entityKey, fv.1⟩ : RowKey)
    then some ⟨fv.2, r.eventTs, r.createdTs⟩ else none

/-- The candidate triples a batch offers for row key `k`, in batch order. -/
def batchCands (proj table : String) (l : List WriteRecord) (k : RowKey) : List StoredValue :=
  l.foldr (fun r acc => recCands proj table r k ++ acc) []

theorem batchCands_cons (proj table : String) (r : WriteRecord)
    (l : List WriteRecord) (k : RowKey) :
    batchCands proj table (r :: l) k =
      recCands proj table r k ++ batchCands proj table l k := rfl

theorem foldl_writeOne_at (proj table : String) (ek : EntityKey) (et ct : Int)
    (fs : List (String × Value)) (s : OnlineStore) (k : RowKey) :
    (fs.foldl (fun acc fv => writeOne proj table acc ek fv.1 fv.2 et ct) s) k =
      (fs.filterMap fun fv =>
        if k = (⟨proj, table, ek, fv.1⟩ : RowKey)
        then some (⟨fv.2, et, ct⟩ : StoredValue) else none).foldl joinCand (s k) := by
  induction fs generalizing s with
  | nil => rfl
  | cons f fs ih =>
    simp only [List.foldl_cons]
    rw [ih]
    by_cases hk : k = (⟨proj, table, ek, f.1⟩ : RowKey)
    · subst hk
      simp [List.filterMap_cons, writeOne, joinCand]
    · simp [List.filterMap_cons, if_neg hk, writeOne]

theorem applyRecord_at (proj table : String) (s : OnlineStore) (r : WriteRecord)
    (k : RowKey) :
    (applyRecord proj table s r) k = (recCands proj table r k).foldl joinCand (s k) := by
  simp only [applyRecord, recCands]
  exact foldl_writeOne_at proj table r.entityKey r.eventTs r.createdTs r.features s k

theorem online_write_batch_at (proj table : String) (l : List WriteRecord)
    (s : OnlineStore) (k : RowKey) :
    (online_write_batch proj table l s) k =
      (batchCands proj table l k).foldl joinCand (s k) := by
  induction l generalizing s with
  | nil => rfl
  | cons r l ih =>
    simp only [online_write_batch, List.foldl_cons] at *
    rw [ih (applyRecord proj table s r), batchCands_cons, List.foldl_append,
      applyRecord_at]

theorem TsPair.ltb_same_event {e c₁ c₂ : Int} (h : c₁ < c₂) :
    TsPair.ltb ⟨e, c₁⟩ ⟨e, c₂⟩ = true := by
  simp [TsPair.ltb, h]

theorem TsPair.ltb_same_event_rev {e c₁ c₂ : Int} (h : c₁ < c₂) :
    TsPair.ltb ⟨e, c₂⟩ ⟨e, c₁⟩ = false := by
  simp only [TsPair.ltb, Bool.or_eq_false_iff, Bool.and_eq_false_iff,
    decide_eq_false_iff_not, not_lt]
  omega

/-- A fixed row key used by concrete witnesses. -/
def c1Key : RowKey := ⟨"p", "tbl", ⟨["driver"], [Value.int64Val 1]⟩, "lat"⟩

/-- A store holding one triple at `c1Key`, used by concrete witnesses. -/
def c1Store : OnlineStore :=
  fun k => if k = c1Key then some ⟨Value.int64Val 7, 100, 100⟩ else none

/-- Claim C1: for every row key (EntityKey, feature_name) and every candidate
write, `online_write_batch` replaces the stored (Value, event_timestamp,
created_timestamp) triple iff the candidate's (event_timestamp,
created_timestamp) pair is strictly greater than the stored pair under
lexicographic order (event_timestamp primary, created_timestamp secondary),
and leaves every other row key unchanged; a candidate whose pair equals the
stored pair is discarded; and two writes with equal event_timestamp resolve
to the one with the greater created_timestamp regardless of application
order. -/
theorem claim_C1 (proj table : String) (s : OnlineStore) (ek : EntityKey)
    (fn : String) (v : Value) (et ct : Int) (old : StoredValue)
    (hstored : s ⟨proj, table, ek, fn⟩ = some old) :
    (online_write_batch proj table [⟨ek, [(fn, v)], et, ct⟩] s ⟨proj, table, ek, fn⟩ =
      if TsPair.ltb old.tsPair ⟨et, ct⟩ then some ⟨v, et, ct⟩ else some old)
    ∧ (∀ k : RowKey, k ≠ ⟨proj, table, ek, fn⟩ →
        online_write_batch proj table [⟨ek, [(fn, v)], et, ct⟩] s k = s k)
    ∧ (et = old.eventTs → ct = old.createdTs →
        online_write_batch proj table [⟨ek, [(fn, v)], et, ct⟩] s ⟨proj, table, ek, fn⟩ =
          some old)
    ∧ (∀ (s₀ : OnlineStore) (v₁ v₂ : Value) (e c₁ c₂ : Int),
        s₀ ⟨proj, table, ek, fn⟩ = none → c₁ < c₂ →
        online_write_batch proj table
            [⟨ek, [(fn, v₁)], e, c₁⟩, ⟨ek, [(fn, v₂)], e, c₂⟩] s₀ ⟨proj, table, ek, fn⟩ =
          some ⟨v₂, e, c₂⟩
        ∧ online_write_batch proj table
            [⟨ek, [(fn, v₂)], e, c₂⟩, ⟨ek, [(fn, v₁)], e, c₁⟩] s₀ ⟨proj, table, ek, fn⟩ =
          some ⟨v₂, e, c₂⟩) := by
  refine ⟨?_, ?_, ?_, ?_⟩
  · simp [online_write_batch, applyRecord, writeOne, hstored, join]
  · intro k hk
    simp [online_write_batch, applyRecord, writeOne, if_neg hk]
  · intro he hc
    subst he
    subst hc
    simp [online_write_batch, applyRecord, writeOne, hstored, join,
      StoredValue.tsPair, TsPair.ltb_irrefl]
  · intro s₀ v₁ v₂ e c₁ c₂ h0 hc
    constructor
    · simp [online_write_batch, applyRecord, writeOne, h0, join,
        StoredValue.tsPair, TsPair.ltb_same_event (e := e) hc]
    · simp [online_write_batch, applyRecord, writeOne, h0, join,
        StoredValue.tsPair, TsPair.ltb_same_event_rev (e := e) hc]

/-- Claim C1 witness: a concrete stored triple with pair (100, 100) survives
a candidate with the strictly smaller pair (50, 200). -/
theorem claim_C1_witness :
    online_write_batch "p" "tbl"
        [⟨⟨["driver"], [Value.int64Val 1]⟩, [("lat", Value.int64Val 9)], 50, 200⟩]
        c1Store c1Key = some ⟨Value.int64Val 7, 100, 100⟩ := by
  have h := (claim_C1 "p" "tbl" c1Store ⟨["driver"], [Value.int64Val 1]⟩ "lat"
    (Value.int64Val 9) 50 200 ⟨Value.int64Val 7, 100, 100⟩ (by decide)).1
  exact h.trans (by decide)

theorem TsPair.ltb_trans {a b c : TsPair} (h₁ : TsPair.ltb a b = true)
    (h₂ : TsPair.ltb b c = true) : TsPair.ltb a c = true := by
  rcases a with ⟨ae, ac⟩
  rcases b with ⟨be, bc⟩
  rcases c with ⟨ce, cc⟩
  simp only [TsPair.ltb, Bool.or_eq_true, Bool.and_eq_true, decide_eq_true_eq,
    beq_iff_eq] at h₁ h₂ ⊢
  omega

theorem joinCand_none (x : StoredValue) : joinCand none x = some x := rfl

theorem joinCand_some (old x : StoredValue) :
    joinCand (some old) x =
      if TsPair.ltb old.tsPair x.tsPair = true then some x else some old := rfl

theorem joinCand_absorb_same_pair (c : Option StoredValue) (x y : StoredValue)
    (h : y.tsPair = x.tsPair) : joinCand (joinCand c x) y = joinCand c x := by
  rcases c with - | old
  · rw [joinCand_none, joinCand_some, h, TsPair.ltb_irrefl]
    simp
  · rw [joinCand_some]
    by_cases hox : TsPair.ltb old.tsPair x.tsPair = true
    · rw [if_pos hox, joinCand_some, h, TsPair.ltb_irrefl]
      simp
    · rw [if_neg hox, joinCand_some, h, if_neg hox]

theorem foldl_joinCand_absorb (c : Option StoredValue) (x : StoredValue)
    (xs : List StoredValue) (h : ∀ y ∈ xs, y.tsPair = x.tsPair) :
    xs.foldl joinCand (joinCand c x) = joinCand c x := by
  induction xs with
  | nil => rfl
  | cons y ys ih =>
    simp only [List.foldl_cons]
    rw [joinCand_absorb_same_pair c x y (h y (List.mem_cons_self y ys))]
    exact ih fun z hz => h z (List.mem_cons_of_mem y hz)

theorem joinCand_comm_aux (c : Option StoredValue) (x y : StoredValue)
    (hxy : TsPair.ltb x.tsPair y.tsPair = true) :
    joinCand (joinCand c x) y = joinCand (joinCand c y) x := by
  have hyx : TsPair.ltb y.tsPair x.tsPair = false := TsPair.ltb_asymm hxy
  rcases c with - | old
  · rw [joinCand_none x, joinCand_none y, joinCand_some x y, joinCand_some y x,
      hxy, hyx]
    simp
  · rw [joinCand_some old x, joinCand_some old y]
    by_cases hox : TsPair.ltb old.tsPair x.tsPair = true
    · have hoy : TsPair.ltb old.tsPair y.tsPair = true := TsPair.ltb_trans hox hxy
      rw [if_pos hox, if_pos hoy, joinCand_some x y, joinCand_some y x, hxy, hyx]
      simp
    · rw [if_neg hox]
      by_cases hoy : TsPair.ltb old.tsPair y.tsPair = true
      · rw [if_pos hoy, joinCand_some old y, joinCand_some y x, if_pos hoy, hyx]
        simp
      · rw [if_neg hoy, joinCand_some old y, joinCand_some old x, if_neg hoy,
          if_neg hox]

theorem joinCand_comm (c : Option StoredValue) (x y : StoredValue)
    (h : x.tsPair ≠ y.tsPair) :
    joinCand (joinCand c x) y = joinCand (joinCand c y) x := by
  by_cases hxy : TsPair.ltb x.tsPair y.tsPair = true
  · exact joinCand_comm_aux c x y hxy
  · have hyx : TsPair.ltb y.tsPair x.tsPair = true :=
      TsPair.ltb_total h (Bool.eq_false_iff.mpr hxy)
    exact (joinCand_comm_aux c y x hyx).symm

theorem recCands_tsPair (proj table : String) (r : WriteRecord) (k : RowKey) :
    ∀ x ∈ recCands proj table r k, x.tsPair = r.tsPair := by
  intro x hx
  simp only [recCands, List.mem_filterMap] at hx
  rcases hx with ⟨fv, -, hif⟩
  by_cases hk : k = (⟨proj, table, r.entityKey, fv.1⟩ : RowKey)
  · rw [if_pos hk] at hif
    cases hif
    rfl
  · rw [if_neg hk] at hif
    cases hif

theorem foldl_joinCand_swap (c : Option StoredValue) (xs ys : List StoredValue)
    (p q : TsPair) (hxs : ∀ x ∈ xs, x.tsPair = p) (hys : ∀ y ∈ ys, y.tsPair = q)
    (hpq : p ≠ q) :
    ys.foldl joinCand (xs.foldl joinCand c) =
      xs.foldl joinCand (ys.foldl joinCand c) := by
  rcases xs with - | ⟨x, xs⟩
  · rfl
  rcases ys with - | ⟨y, ys⟩
  · rfl
  have hx : x.tsPair = p := hxs x (List.mem_cons_self x xs)
  have hy : y.tsPair = q := hys y (List.mem_cons_self y ys)
  have hxs2 : ∀ z ∈ xs, z.tsPair = x.tsPair := by
    intro z hz
    rw [hx]
    exact hxs z (List.mem_cons_of_mem x hz)
  have hys2 : ∀ z ∈ ys, z.tsPair = y.tsPair := by
    intro z hz
    rw [hy]
    exact hys z (List.mem_cons_of_mem y hz)
  simp only [List.foldl_cons]
  rw [foldl_joinCand_absorb c x xs hxs2, foldl_joinCand_absorb c y ys hys2,
    foldl_joinCand_absorb (joinCand c x) y ys hys2,
    foldl_joinCand_absorb (joinCand c y) x xs hxs2]
  exact joinCand_comm c x y (by rw [hx, hy]; exact hpq)

theorem applyRecord_swap (proj table : String) (s : OnlineStore)
    (r₁ r₂ : WriteRecord) (h : r₁ = r₂ ∨ r₁.tsPair ≠ r₂.tsPair) :
    applyRecord proj table (applyRecord proj table s r₁) r₂ =
      applyRecord proj table (applyRecord proj table s r₂) r₁ := by
  rcases h with rfl | hne
  · rfl
  funext k
  rw [applyRecord_at, applyRecord_at, applyRecord_at, applyRecord_at]
  exact foldl_joinCand_swap (s k) (recCands proj table r₁ k)
    (recCands proj table r₂ k) r₁.tsPair r₂.tsPair
    (recCands_tsPair proj table r₁ k) (recCands_tsPair proj table r₂ k) hne

theorem online_write_batch_perm (proj table : String) {l₁ l₂ : List WriteRecord}
    (hperm : l₁.Perm l₂) :
    (∀ r₁ ∈ l₁, ∀ r₂ ∈ l₁, r₁ = r₂ ∨ r₁.tsPair ≠ r₂.tsPair) →
    ∀ s : OnlineStore,
      online_write_batch proj table l₁ s = online_write_batch proj table l₂ s := by
  induction hperm with
  | nil =>
    intro _ s
    rfl
  | cons x hp ih =>
    intro hdist s
    show online_write_batch proj table _ (applyRecord proj table s x) =
      online_write_batch proj table _ (applyRecord proj table s x)
    exact ih
      (fun r₁ h₁ r₂ h₂ =>
        hdist r₁ (List.mem_cons_of_mem x h₁) r₂ (List.mem_cons_of_mem x h₂))
      (applyRecord proj table s x)
  | swap x y l =>
    intro hdist s
    show online_write_batch proj table l
        (applyRecord proj table (applyRecord proj table s y) x) =
      online_write_batch proj table l
        (applyRecord proj table (applyRecord proj table s x) y)
    rw [applyRecord_swap proj table s y x
      (hdist y (List.mem_cons_self y (x :: l)) x
        (List.mem_cons_of_mem y (List.mem_cons_self x l)))]
  | trans hp₁ hp₂ ih₁ ih₂ =>
    intro hdist s
    rw [ih₁ hdist s]
    refine ih₂ ?_ s
    intro r₁ h₁ r₂ h₂
    exact hdist r₁ (hp₁.mem_iff.mpr h₁) r₂ (hp₁.mem_iff.mpr h₂)

/- Idempotence: after a batch has been applied, the stored pair at each row
key is at least every candidate pair the batch offers, so replaying the batch
changes nothing. -/

/-- The stored triple dominates the pair `p`: present and not less than `p`. -/
def svGe (c : Option StoredValue) (p : TsPair) : Prop :=
  ∃ sv, c = some sv ∧ TsPair.ltb sv.tsPair p = false

theorem joinCand_ge_self (c : Option StoredValue) (x : StoredValue) :
    svGe (joinCand c x) x.tsPair := by
  rcases c with - | old
  · exact ⟨x, joinCand_none x, TsPair.ltb_irrefl x.tsPair⟩
  · rw [joinCand_some]
    by_cases hox : TsPair.ltb old.tsPair x.tsPair = true
    · rw [if_pos hox]
      exact ⟨x, rfl, TsPair.ltb_irrefl x.tsPair⟩
    · rw [if_neg hox]
      exact ⟨old, rfl, Bool.eq_false_iff.mpr hox⟩

theorem joinCand_preserves_ge (c : Option StoredValue) (x : StoredValue)
    (p : TsPair) (h : svGe c p) : svGe (joinCand c x) p := by
  rcases h with ⟨old, rfl, hge⟩
  rw [joinCand_some]
  by_cases hox : TsPair.ltb old.tsPair x.tsPair = true
  · rw [if_pos hox]
    refine ⟨x, rfl, ?_⟩
    cases hxp : TsPair.ltb x.tsPair p
    · rfl
    · have htr := TsPair.ltb_trans hox hxp
      rw [hge] at htr
      exact Bool.noConfusion htr
  · rw [if_neg hox]
    exact ⟨old, rfl, hge⟩

theorem foldl_joinCand_preserves_ge (c : Option StoredValue)
    (cs : List StoredValue) (p : TsPair) (h : svGe c p) :
    svGe (cs.foldl joinCand c) p := by
  induction cs generalizing c with
  | nil => exact h
  | cons x xs ih =>
    simp only [List.foldl_cons]
    exact ih (joinCand c x) (joinCand_preserves_ge c x p h)

theorem foldl_joinCand_ge_mem (c : Option StoredValue) (cs : List StoredValue)
    (x : StoredValue) (hx : x ∈ cs) : svGe (cs.foldl joinCand c) x.tsPair := by
  induction cs generalizing c with
  | nil => cases hx
  | cons y ys ih =>
    simp only [List.foldl_cons]
    rcases List.mem_cons.mp hx with rfl | hmem
    · exact foldl_joinCand_preserves_ge (joinCand c x) ys x.tsPair
        (joinCand_ge_self c x)
    · exact ih (joinCand c y) hmem

theorem joinCand_no_replace (sv x : StoredValue)
    (h : TsPair.ltb sv.tsPair x.tsPair = false) :
    joinCand (some sv) x = some sv := by
  rw [joinCand_some, if_neg (by simp [h])]

theorem foldl_joinCand_idem (c : Option StoredValue) (cs : List StoredValue)
    (h : ∀ x ∈ cs, svGe c x.tsPair) : cs.foldl joinCand c = c := by
  induction cs with
  | nil => rfl
  | cons x xs ih =>
    simp only [List.foldl_cons]
    rcases h x (List.mem_cons_self x xs) with ⟨sv, hc, hge⟩
    subst hc
    rw [joinCand_no_replace sv x hge]
    exact ih fun z hz => h z (List.mem_cons_of_mem x hz)

theorem online_write_batch_idem (proj table : String) (l : List WriteRecord)
    (s : OnlineStore) :
    online_write_batch proj table l (online_write_batch proj table l s) =
      online_write_batch proj table l s := by
  funext k
  rw [online_write_batch_at, online_write_batch_at]
  exact foldl_joinCand_idem _ _ fun x hx =>
    foldl_joinCand_ge_mem (s k) (batchCands proj table l k) x hx

/- Materializer model. -/

/-- A historical row of a batch source: entity key derived from the view's
entity columns, feature values from its feature columns, timestamps from the
declared event/created columns. -/
structure SourceRow where
  entityKey : EntityKey
  featureValues : List (String × Value)
  eventTs : Int
  createdTs : Int
deriving DecidableEq, Repr

/-- Modelled from the spec (§4.3, the materializer code is not in the source
set): convert one historical row into a write record. -/
def SourceRow.toRecord (r : SourceRow) : WriteRecord :=
  ⟨r.entityKey, r.featureValues, r.eventTs, r.createdTs⟩

/-- Modelled from the spec (§4.3): the rows of the half-open interval
[start, stop), by event timestamp. -/
def rowsInWindow (rows : List SourceRow) (start stop : Int) : List SourceRow :=
  rows.filter fun r => decide (start ≤ r.eventTs) && decide (r.eventTs < stop)

/-- Modelled from the spec (§4.3): materialize one view over [start, stop) by
pushing the interval's rows through `online_write_batch`. -/
def materializeView (proj table : String) (rows : List SourceRow)
    (start stop : Int) (s : OnlineStore) : OnlineStore :=
  online_write_batch proj table
    ((rowsInWindow rows start stop).map SourceRow.toRecord) s

theorem materializeView_idem (proj table : String) (rows : List SourceRow)
    (start stop : Int) (s : OnlineStore) :
    materializeView proj table rows start stop
        (materializeView proj table rows start stop s) =
      materializeView proj table rows start stop s := by
  unfold materializeView
  exact online_write_batch_idem proj table _ s

/-- Record writing value 1 at timestamp pair (0, 0), for the C2 analysis. -/
def c2RecA : WriteRecord :=
  ⟨⟨["driver"], [Value.int64Val 1]⟩, [("lat", Value.int64Val 1)], 0, 0⟩

/-- Record writing value 2 at the identical timestamp pair (0, 0). -/
def c2RecB : WriteRecord :=
  ⟨⟨["driver"], [Value.int64Val 1]⟩, [("lat", Value.int64Val 2)], 0, 0⟩

/-- Record writing value 2 at the strictly greater pair (1, 0). -/
def c2RecC : WriteRecord :=
  ⟨⟨["driver"], [Value.int64Val 1]⟩, [("lat", Value.int64Val 2)], 1, 0⟩

/-- Claim C2 counterexample: two records with the identical (event_timestamp,
created_timestamp) pair but different values for the same row key produce
different final states depending on application order, so
`online_write_batch` is not commutative for every multiset of write records:
the first-applied record wins and the later one is discarded as not strictly
greater. -/
theorem claim_C2_counterexample :
    online_write_batch "p" "tbl" [c2RecA, c2RecB] emptyStore c1Key ≠
      online_write_batch "p" "tbl" [c2RecB, c2RecA] emptyStore c1Key := by
  decide

/-- Claim C2 (amended): `online_write_batch` is order independent provided no
two distinct records of the batch carry the identical (event_timestamp,
created_timestamp) pair; replaying a batch a second time never changes the
state; and hence materializing the same half-open interval twice produces a
state identical to materializing it once. -/
theorem claim_C2_amended (proj table : String) (s : OnlineStore)
    (l₁ l₂ : List WriteRecord) (hperm : l₁.Perm l₂)
    (hdist : ∀ r₁ ∈ l₁, ∀ r₂ ∈ l₁, r₁ = r₂ ∨ r₁.tsPair ≠ r₂.tsPair) :
    online_write_batch proj table l₁ s = online_write_batch proj table l₂ s
    ∧ (∀ (l : List WriteRecord) (s₀ : OnlineStore),
        online_write_batch proj table l (online_write_batch proj table l s₀) =
          online_write_batch proj table l s₀)
    ∧ (∀ (rows : List SourceRow) (start stop : Int) (s₀ : OnlineStore),
        materializeView proj table rows start stop
            (materializeView proj table rows start stop s₀) =
          materializeView proj table rows start stop s₀) := by
  refine ⟨online_write_batch_perm proj table hperm hdist s, ?_, ?_⟩
  · intro l s₀
    exact online_write_batch_idem proj table l s₀
  · intro rows start stop s₀
    exact materializeView_idem proj table rows start stop s₀

/-- Claim C2 witness: with distinct timestamp pairs, the two application
orders of two concrete records agree. -/
theorem claim_C2_witness :
    online_write_batch "p" "tbl" [c2RecA, c2RecC] emptyStore =
      online_write_batch "p" "tbl" [c2RecC, c2RecA] emptyStore :=
  (claim_C2_amended "p" "tbl" emptyStore [c2RecA, c2RecC] [c2RecC, c2RecA]
    (List.Perm.swap c2RecC c2RecA []) (by decide)).1

/-- Claim C3: `online_read` returns one result per requested EntityKey in
exactly the input order, and a never-written EntityKey yields an empty
feature-to-Value mapping rather than an error. -/
theorem claim_C3 (proj table : String) (s : OnlineStore) (feats : List String)
    (keys : List EntityKey) :
    online_read proj table s feats keys =
      keys.map (fun ek => (ek, readRow proj table s feats ek))
    ∧ (online_read proj table s feats keys).map Prod.fst = keys
    ∧ ∀ ek : EntityKey, (∀ fn : String, s ⟨proj, table, ek, fn⟩ = none) →
        readRow proj table s feats ek = [] := by
  refine ⟨rfl, ?_, ?_⟩
  · simp [online_read, List.map_map, Function.comp_def]
  · intro ek hek
    simp [readRow, hek]

/-- Claim C3 witness: reading one never-written key from the empty store
yields that key paired with the empty mapping. -/
theorem claim_C3_witness :
    (online_read "p" "tbl" emptyStore ["lat"]
        [⟨["driver"], [Value.int64Val 1]⟩]).map Prod.fst =
      [⟨["driver"], [Value.int64Val 1]⟩]
    ∧ readRow "p" "tbl" emptyStore ["lat"] ⟨["driver"], [Value.int64Val 1]⟩ = [] :=
  ⟨(claim_C3 "p" "tbl" emptyStore ["lat"] [⟨["driver"], [Value.int64Val 1]⟩]).2.1,
   (claim_C3 "p" "tbl" emptyStore ["lat"] [⟨["driver"], [Value.int64Val 1]⟩]).2.2
     ⟨["driver"], [Value.int64Val 1]⟩ (fun _ => rfl)⟩

/- FeatureStore facade: reference resolution. -/

/-- A feature declared inside a view: name and dtype. -/
structure FeatureDef where
  name : String
  dtype : String
deriving DecidableEq, Repr

/-- A feature view as registered: name, ordered features, referenced entity
names, labels. -/
structure FeatureViewDecl where
  name : String
  features : List FeatureDef
  entities : List String
  labels : List (String × String)
deriving DecidableEq, Repr

/-- A feature reference `view:feature`. -/
structure FeatureRef where
  view : String
  feature : String
deriving DecidableEq, Repr

/-- Modelled from the spec (§4.4, the facade code is not in the source set):
a reference resolves iff some registered view bears its view name and
declares its feature. -/
def resolveRef (reg : List FeatureViewDecl) (r : FeatureRef) : Bool :=
  reg.any fun fv => fv.name == r.view && (fv.features.map FeatureDef.name).contains r.feature

/-- Modelled from the spec (§4.4): `get_online_features` resolves every
reference against the registry first; on the first unresolvable reference it
fails naming it, with no reads issued. Otherwise it issues one read per
distinct referenced view and assembles one value per entity row per
reference, preserving row order. The second component is the trace of views
read. -/
def get_online_features (reg : List FeatureViewDecl) (refs : List FeatureRef)
    (proj : String) (s : OnlineStore) (entityRows : List EntityKey) :
    Except FeatureRef (List (FeatureRef × List (Option Value))) × List String :=
  match refs.find? (fun r => !(resolveRef reg r)) with
  | some bad => (.error bad, [])
  | none =>
    (.ok (refs.map fun r =>
      (r, entityRows.map fun ek =>
        (s ⟨proj, r.view, ek, r.feature⟩).map StoredValue.value)),
     (refs.map FeatureRef.view).dedup)

theorem find?_first {α : Type} (p : α → Bool) (l : List α)
    (h : ∃ x ∈ l, p x = true) :
    ∃ pre x post, l = pre ++ x :: post ∧ p x = true ∧
      (∀ y ∈ pre, p y = false) ∧ l.find? p = some x := by
  induction l with
  | nil => simp at h
  | cons a l ih =>
    by_cases hpa : p a = true
    · exact ⟨[], a, l, rfl, hpa, by simp, List.find?_cons_of_pos l hpa⟩
    · have hmem : ∃ x ∈ l, p x = true := by
        rcases h with ⟨x, hx, hpx⟩
        rcases List.mem_cons.mp hx with rfl | hxl
        · exact absurd hpx hpa
        · exact ⟨x, hxl, hpx⟩
      rcases ih hmem with ⟨pre, x, post, heq, hpx, hpre, hfind⟩
      refine ⟨a :: pre, x, post, by rw [heq]; rfl, hpx, ?_, ?_⟩
      · intro y hy
        rcases List.mem_cons.mp hy with rfl | hyp
        · exact Bool.eq_false_iff.mpr hpa
        · exact hpre y hyp
      · rw [List.find?_cons_of_neg l hpa, hfind]

/-- Claim C4: whenever a request contains at least one unresolvable feature
reference, `get_online_features` performs zero backend reads and fails naming
the first unresolvable reference (every reference before it resolves). -/
theorem claim_C4 (reg : List FeatureViewDecl) (refs : List FeatureRef)
    (proj : String) (s : OnlineStore) (rows : List EntityKey)
    (hbad : ∃ r ∈ refs, resolveRef reg r = false) :
    ∃ pre bad post, refs = pre ++ bad :: post
      ∧ resolveRef reg bad = false
      ∧ (∀ r ∈ pre, resolveRef reg r = true)
      ∧ get_online_features reg refs proj s rows = (.error bad, []) := by
  have h2 : ∃ r ∈ refs, (!(resolveRef reg r)) = true := by
    rcases hbad with ⟨r, hr, hfr⟩
    exact ⟨r, hr, by rw [hfr]; rfl⟩
  rcases find?_first (fun r => !(resolveRef reg r)) refs h2 with
    ⟨pre, bad, post, heq, hpx, hpre, hfind⟩
  refine ⟨pre, bad, post, heq, by simpa using hpx, ?_, ?_⟩
  · intro r hr
    have := hpre r hr
    simpa using this
  · rw [get_online_features, hfind]

/-- A one-view registry used by the C4 witness. -/
def c4Reg : List FeatureViewDecl :=
  [⟨"driver_hourly_stats", [⟨"conv_rate", "double"⟩], ["driver"], []⟩]

/-- A reference list whose second reference does not resolve. -/
def c4Refs : List FeatureRef :=
  [⟨"driver_hourly_stats", "conv_rate"⟩, ⟨"missing_view", "conv_rate"⟩]

/-- Claim C4 witness: a request with one valid and one unresolvable
reference fails with zero reads, naming the unresolvable one. -/
theorem claim_C4_witness :
    ∃ pre bad post, c4Refs = pre ++ bad :: post
      ∧ resolveRef c4Reg bad = false
      ∧ (∀ r ∈ pre, resolveRef c4Reg r = true)
      ∧ get_online_features c4Reg c4Refs "p" emptyStore [] = (.error bad, []) :=
  claim_C4 c4Reg c4Refs "p" emptyStore []
    ⟨⟨"missing_view", "conv_rate"⟩, by decide, by decide⟩

/- Registry model. -/

/-- The kind of a registry object. -/
inductive RegKind where
  | entityKind
  | viewKind
deriving DecidableEq, Repr

/-- Registry objects are addressed by (project, kind, name). -/
structure RegKey where
  project : String
  kind : RegKind
  name : String
deriving DecidableEq, Repr

/-- An entity definition: name, value type, description, labels — the fields
`test_feature_store.py` round-trips. The value type is carried as the enum
name string. -/
structure EntityDef where
  name : String
  valueType : String
  description : String
  labels : List (String × String)
deriving DecidableEq, Repr

/-- A stored registry object. -/
inductive RegObject where
  | entityObj (e : EntityDef)
  | viewObj (v : FeatureViewDecl)
deriving DecidableEq, Repr

/-- Registry state: at most one object per (project, kind, name). -/
def Registry : Type := RegKey → Option RegObject

/-- Modelled from the spec (§4.1, the registry code is not in the source
set): `apply_total` makes the project's slice of the registry match the
repo's desired set — every desired object is upserted, every stored object
of the same kind absent from the desired set is deleted, and no other
project is touched. -/
def apply_total (reg : Registry) (project : String) (ents : List EntityDef)
    (views : List FeatureViewDecl) : Registry :=
  fun k =>
    if k.project = project then
      match k.kind with
      | .entityKind => (ents.find? fun e => e.name == k.name).map RegObject.entityObj
      | .viewKind => (views.find? fun v => v.name == k.name).map RegObject.viewObj
    else reg k

theorem find?_name_of_mem {α : Type} (nm : α → String) (l : List α)
    (hpw : l.Pairwise fun a b => nm a ≠ nm b) (x : α) (hx : x ∈ l) :
    l.find? (fun a => nm a == nm x) = some x := by
  induction l with
  | nil => cases hx
  | cons a l ih =>
    rcases List.mem_cons.mp hx with rfl | hxl
    · exact List.find?_cons_of_pos l (by simp)
    · have hne : nm a ≠ nm x := (List.pairwise_cons.mp hpw).1 x hxl
      rw [List.find?_cons_of_neg l (by simpa using hne)]
      exact ih (List.pairwise_cons.mp hpw).2 hxl

/-- Claim C5: `apply_total` upserts every desired object, deletes every
stored object of the same kind not present in the desired set, and leaves
every other project unchanged. -/
theorem claim_C5 (reg : Registry) (project : String) (ents : List EntityDef)
    (views : List FeatureViewDecl)
    (hue : ents.Pairwise fun a b => a.name ≠ b.name)
    (huv : views.Pairwise fun a b => a.name ≠ b.name) :
    (∀ e ∈ ents, apply_total reg project ents views ⟨project, .entityKind, e.name⟩ =
      some (.entityObj e))
    ∧ (∀ v ∈ views, apply_total reg project ents views ⟨project, .viewKind, v.name⟩ =
      some (.viewObj v))
    ∧ (∀ n : String, (∀ e ∈ ents, e.name ≠ n) →
        apply_total reg project ents views ⟨project, .entityKind, n⟩ = none)
    ∧ (∀ n : String, (∀ v ∈ views, v.name ≠ n) →
        apply_total reg project ents views ⟨project, .viewKind, n⟩ = none)
    ∧ (∀ k : RegKey, k.project ≠ project → apply_total reg project ents views k = reg k) := by
  refine ⟨?_, ?_, ?_, ?_, ?_⟩
  · intro e he
    simp only [apply_total, if_pos rfl]
    rw [find?_name_of_mem EntityDef.name ents hue e he]
    rfl
  · intro v hv
    simp only [apply_total, if_pos rfl]
    rw [find?_name_of_mem FeatureViewDecl.name views huv v hv]
    rfl
  · intro n hn
    simp only [apply_total, if_pos rfl]
    rw [List.find?_eq_none.mpr fun e he => by simpa using hn e he]
    rfl
  · intro n hn
    simp only [apply_total, if_pos rfl]
    rw [List.find?_eq_none.mpr fun v hv => by simpa using hn v hv]
    rfl
  · intro k hk
    simp only [apply_total, if_neg hk]

/-- A concrete desired entity for the C5 witness. -/
def c5Ent : EntityDef := ⟨"driver", "INT64", "driver id", [("team", "x")]⟩

/-- A registry holding one stale object in the same project and one object
in another project, for the C5 witness. -/
def c5Reg : Registry :=
  fun k =>
    if k = ⟨"proj1", .entityKind, "stale"⟩ then
      some (.entityObj ⟨"stale", "STRING", "gone", []⟩)
    else if k = ⟨"proj2", .entityKind, "other"⟩ then
      some (.entityObj ⟨"other", "STRING", "kept", []⟩)
    else none

/-- Claim C5 witness: the desired entity is upserted, the stale same-project
object is deleted, and the other project's object is untouched. -/
theorem claim_C5_witness :
    apply_total c5Reg "proj1" [c5Ent] [] ⟨"proj1", .entityKind, "driver"⟩ =
      some (.entityObj c5Ent)
    ∧ apply_total c5Reg "proj1" [c5Ent] [] ⟨"proj1", .entityKind, "stale"⟩ = none
    ∧ apply_total c5Reg "proj1" [c5Ent] [] ⟨"proj2", .entityKind, "other"⟩ =
      c5Reg ⟨"proj2", .entityKind, "other"⟩ :=
  ⟨(claim_C5 c5Reg "proj1" [c5Ent] [] (by decide) (by decide)).1 c5Ent
      (List.mem_cons_self c5Ent []),
   (claim_C5 c5Reg "proj1" [c5Ent] [] (by decide) (by decide)).2.2.1 "stale"
      (by decide),
   (claim_C5 c5Reg "proj1" [c5Ent] [] (by decide) (by decide)).2.2.2.2
      ⟨"proj2", .entityKind, "other"⟩ (by decide)⟩

/-- Modelled from the spec (§4.1): `apply` upserts each entity by
(project, name); unknown names are inserted, existing names replaced
wholesale. -/
def applyEntities (reg : Registry) (project : String) (es : List EntityDef) : Registry :=
  es.foldl
    (fun r e => fun k =>
      if k = ⟨project, .entityKind, e.name⟩ then some (.entityObj e) else r k)
    reg

/-- Modelled from the spec (§4.1): `get_entity` returns the stored entity of
that (project, name), if any. -/
def get_entity (reg : Registry) (project name : String) : Option EntityDef :=
  match reg ⟨project, .entityKind, name⟩ with
  | some (.entityObj e) => some e
  | _ => none

/-- Claim C7: applying an entity and then getting it back by name yields an
entity equal to it in every field (name, value_type, description, labels):
the full `EntityDef` round-trips unchanged. -/
theorem claim_C7 (reg : Registry) (project : String) (E : EntityDef) :
    get_entity (applyEntities reg project [E]) project E.name = some E := by
  simp [get_entity, applyEntities]

/-- A NotFound failure names the missing (project, name). -/
structure NotFoundErr where
  project : String
  name : String
deriving DecidableEq, Repr

/-- Modelled from the spec (§4.1, §7): `get_entity` either returns the
object or fails with NotFound naming the missing (project, name). -/
def get_entity_or_error (reg : Registry) (project name : String) :
    Except NotFoundErr EntityDef :=
  match reg ⟨project, .entityKind, name⟩ with
  | some (.entityObj e) => .ok e
  | _ => .error ⟨project, name⟩

/-- Modelled from the spec (§4.1, §7): `get_feature_view` either returns the
object or fails with NotFound naming the missing (project, name). -/
def get_feature_view_or_error (reg : Registry) (project name : String) :
    Except NotFoundErr FeatureViewDecl :=
  match reg ⟨project, .viewKind, name⟩ with
  | some (.viewObj v) => .ok v
  | _ => .error ⟨project, name⟩

/-- Claim C8: looking up an absent entity or feature view fails with a
NotFound condition naming the missing (project, name), and never returns
success. -/
theorem claim_C8 (reg : Registry) (project name : String)
    (he : reg ⟨project, .entityKind, name⟩ = none)
    (hv : reg ⟨project, .viewKind, name⟩ = none) :
    get_entity_or_error reg project name = .error ⟨project, name⟩
    ∧ get_feature_view_or_error reg project name = .error ⟨project, name⟩
    ∧ (∀ e : EntityDef, get_entity_or_error reg project name ≠ .ok e)
    ∧ (∀ v : FeatureViewDecl, get_feature_view_or_error reg project name ≠ .ok v) := by
  refine ⟨?_, ?_, ?_, ?_⟩
  · simp [get_entity_or_error, he]
  · simp [get_feature_view_or_error, hv]
  · intro e
    simp [get_entity_or_error, he]
  · intro v
    simp [get_feature_view_or_error, hv]

/-- Claim C8 witness: both lookups on the empty registry fail naming the
requested (project, name). -/
theorem claim_C8_witness :
    get_entity_or_error (fun _ => none) "proj1" "driver" = .error ⟨"proj1", "driver"⟩
    ∧ get_feature_view_or_error (fun _ => none) "proj1" "driver" =
      .error ⟨"proj1", "driver"⟩ :=
  ⟨(claim_C8 (fun _ => none) "proj1" "driver" rfl rfl).1,
   (claim_C8 (fun _ => none) "proj1" "driver" rfl rfl).2.1⟩

/- CLI exit-code plumbing. -/

/-- Modelled from the spec (§6) and `cli.py`: a command body either
completes or surfaces a handled failure; the CLI layer alone converts the
outcome into a process exit code — 1 on a handled failure (the
`except ... sys.exit(1)` pattern of `version`, `config list`, `config set`),
0 otherwise (the default success exit asserted by `cli_utils.py`). -/
def run_command (body : Except String Unit) : Nat :=
  match body with
  | .ok _ => 0
  | .error _ => 1

/-- Embedded from `cli.py` `version`: the body fails when initializing the
backend store fails. -/
def version_body (backendOk : Bool) : Except String Unit :=
  if backendOk then .ok () else .error "Error initializing backend store"

/-- Modelled from the spec and `cli_utils.py`: `apply` on a valid repository
succeeds. -/
def apply_body (repoValid : Bool) : Except String Unit :=
  if repoValid then .ok () else .error "not a feature repository"

/-- Modelled from the spec and `cli_utils.py`: `teardown` on a valid
repository succeeds. -/
def teardown_body (repoValid : Bool) : Except String Unit :=
  if repoValid then .ok () else .error "not a feature repository"

/-- Claim C9: a CLI command exits with code 1 exactly on a handled failure
and 0 otherwise; `apply` and `teardown` on a valid repository exit 0, and a
failure inside `version` exits 1. -/
theorem claim_C9 :
    (∀ body : Except String Unit,
      (run_command body = 1 ↔ ∃ msg : String, body = .error msg)
      ∧ (run_command body = 0 ↔ body = .ok ()))
    ∧ run_command (apply_body true) = 0
    ∧ run_command (teardown_body true) = 0
    ∧ run_command (version_body false) = 1 := by
  refine ⟨?_, rfl, rfl, rfl⟩
  intro body
  rcases body with msg | u
  · constructor
    · simp [run_command]
    · simp [run_command]
  · constructor
    · simp [run_command]
    · simp [run_command]

/- The materialize CLI command's timestamp and view-list handling. -/

/-- A parsed Python datetime, as `datetime.fromisoformat` produces it: the
wall-clock digits (encoded as the epoch instant those digits denote when
read as UTC) and the UTC offset in seconds, `none` for a naive value. -/
structure PyDatetime where
  wallClock : Int
  tzOffsetSeconds : Option Int
deriving DecidableEq, Repr

/-- Python `datetime.replace(tzinfo=utc)`: keeps every wall-clock field and
forcibly sets the timezone to UTC, discarding any previous offset. -/
def replace_tzinfo_utc (d : PyDatetime) : PyDatetime :=
  ⟨d.wallClock, some 0⟩

/-- The epoch instant an aware datetime denotes: wall clock minus offset;
`none` for a naive datetime. -/
def utcInstant (d : PyDatetime) : Option Int :=
  d.tzOffsetSeconds.map fun o => d.wallClock - o

/-- Embedded from `cli.py` lines 407-430 (`materialize_command`):
`datetime.fromisoformat(ts).replace(tzinfo=utc)` — the parse result has its
tzinfo forcibly set to UTC. -/
def materialize_parse_ts (parsed : PyDatetime) : PyDatetime :=
  replace_tzinfo_utc parsed

/-- Embedded from `cli.py` line 427: `None if not views else views`. -/
def materialize_views_arg (views : List String) : Option (List String) :=
  if views.isEmpty then none else some views

/-- Modelled from the spec (§4.3): a `none` view argument targets all
registered feature views. -/
def targetViews (arg : Option (List String)) (registered : List String) : List String :=
  match arg with
  | none => registered
  | some vs => vs

/-- Claim C10: the materialize command reinterprets the parsed wall-clock
digits as UTC — a timezone-naive input is read as UTC wall-clock time and an
explicit non-zero UTC offset is discarded rather than converted — and an
absent `--views` option passes `None`, targeting all registered views. -/
theorem claim_C10 (d : PyDatetime) (registered : List String) :
    utcInstant (materialize_parse_ts d) = some d.wallClock
    ∧ (∀ o : Int, d.tzOffsetSeconds = some o → o ≠ 0 →
        utcInstant (materialize_parse_ts d) ≠ utcInstant d)
    ∧ (d.tzOffsetSeconds = none → utcInstant d = none ∧
        utcInstant (materialize_parse_ts d) = some d.wallClock)
    ∧ materialize_views_arg [] = none
    ∧ targetViews (materialize_views_arg []) registered = registered
    ∧ (∀ vs : List String, vs ≠ [] → materialize_views_arg vs = some vs) := by
  refine ⟨?_, ?_, ?_, rfl, rfl, ?_⟩
  · simp [utcInstant, materialize_parse_ts, replace_tzinfo_utc]
  · intro o ho hne
    simp only [utcInstant, materialize_parse_ts, replace_tzinfo_utc, ho]
    intro hc
    simp at hc
    omega
  · intro hnone
    constructor
    · simp [utcInstant, hnone]
    · simp [utcInstant, materialize_parse_ts, replace_tzinfo_utc]
  · intro vs hvs
    simp [materialize_views_arg, hvs]

/-- Claim C10 witness: a wall clock of 100 with an explicit +3600 s offset is
reinterpreted as instant 100 (offset discarded, which differs from the
correct conversion 100 - 3600), and a non-empty views list is passed as-is. -/
theorem claim_C10_witness :
    utcInstant (materialize_parse_ts ⟨100, some 3600⟩) = some 100
    ∧ utcInstant (materialize_parse_ts ⟨100, some 3600⟩) ≠
      utcInstant ⟨100, some 3600⟩
    ∧ materialize_views_arg ["driver_hourly_stats"] = some ["driver_hourly_stats"] :=
  ⟨(claim_C10 ⟨100, some 3600⟩ []).1,
   (claim_C10 ⟨100, some 3600⟩ []).2.1 3600 rfl (by decide),
   (claim_C10 ⟨100, some 3600⟩ []).2.2.2.2.2 ["driver_hourly_stats"] (by decide)⟩

/- Label-filter parsing at the CLI boundary (`_get_labels_dict`). -/

/-- Character-level model of Python `str.split(",")`: splitting on every
comma, keeping empty tokens, with `[""]` for the empty string. -/
def splitCommaChars : List Char → List (List Char)
  | [] => [[]]
  | c :: rest =>
    match splitCommaChars rest with
    | [] => [[c]]
    | g :: gs => if c = ',' then [] :: g :: gs else (c :: g) :: gs

/-- `label_str.split(",")` of `cli.py`. -/
def splitComma (s : String) : List String :=
  (splitCommaChars s.data).map fun cs => String.mk cs

/-- The elements at even positions, `l[0::2]` in Python slice notation. -/
def everySecond {α : Type} : List α → List α
  | [] => []
  | [a] => [a]
  | a :: _ :: rest => a :: everySecond rest

/-- `zip(l[0::2], l[1::2])`: each even-indexed element paired with the
element that follows it. -/
def pairsOf {α : Type} (l : List α) : List (α × α) :=
  (everySecond l).zip (everySecond l.tail)

/-- Python dict assignment `d[k] = v`: replace in place if the key is
present, else append. -/
def dictSet (d : List (String × String)) (k v : String) : List (String × String) :=
  if d.any fun p => p.1 == k then
    d.map fun p => if p.1 == k then (k, v) else p
  else d ++ [(k, v)]

/-- Python dict lookup. -/
def dictLookup (d : List (String × String)) (k : String) : Option String :=
  (d.find? fun p => p.1 == k).map fun p => p.2

/-- Embedded from `cli.py` lines 229-247 (`_get_labels_dict`): split the
input on commas; the empty string yields the empty dict; an odd token count
raises ValueError; otherwise each even-indexed token is paired with the
following token and the pairs are entered into a dict in order. -/
def _get_labels_dict (label_str : String) : Except String (List (String × String)) :=
  let labels_kv := splitComma label_str
  if label_str = "" then .ok []
  else if labels_kv.length % 2 == 1 then
    .error "Uneven key-value label pairs were entered"
  else .ok ((pairsOf labels_kv).foldl (fun d p => dictSet d p.1 p.2) [])

/-- Modelled from the spec (§4.1): an object passes the label filter iff its
label mapping is a superset of the filter. -/
def labelsMatch (fil : List (String × String)) (objLabels : List (String × String)) : Bool :=
  fil.all fun p => dictLookup objLabels p.1 == some p.2

/-- Modelled from the spec (§4.1): `list_entities` restricted to a label
filter returns exactly the stored entities whose labels are a superset of
the filter. -/
def list_entities (ents : List EntityDef) (fil : List (String × String)) : List EntityDef :=
  ents.filter fun e => labelsMatch fil e.labels

theorem pairsOf_cons_cons {α : Type} (x y : α) (rest : List α) :
    pairsOf (x :: y :: rest) = (x, y) :: pairsOf rest := by
  cases rest <;> simp [pairsOf, everySecond]

theorem pairsOf_get {α : Type} : ∀ (l : List α) (i : Nat) (a b : α),
    l[2 * i]? = some a → l[2 * i + 1]? = some b → (pairsOf l)[i]? = some (a, b)
  | [], i, a, b, ha, _ => by simp at ha
  | [x], i, a, b, _, hb => by
    rw [List.getElem?_eq_none (by simp)] at hb
    exact Option.noConfusion hb
  | x :: y :: rest, 0, a, b, ha, hb => by
    simp only [Nat.mul_zero, List.getElem?_cons_zero, Nat.zero_add,
      List.getElem?_cons_succ] at ha hb
    rw [pairsOf_cons_cons]
    simp only [List.getElem?_cons_zero] at hb ⊢
    rw [Option.some.injEq] at ha hb
    rw [ha, hb]
  | x :: y :: rest, i + 1, a, b, ha, hb => by
    have ha2 : rest[2 * i]? = some a := by
      have e : 2 * (i + 1) = 2 * i + 1 + 1 := by omega
      rw [e] at ha
      simpa using ha
    have hb2 : rest[2 * i + 1]? = some b := by
      have e : 2 * (i + 1) + 1 = 2 * i + 1 + 1 + 1 := by omega
      rw [e] at hb
      simpa using hb
    rw [pairsOf_cons_cons]
    simpa using pairsOf_get rest i a b ha2 hb2

/-- Claim C6: `_get_labels_dict` returns the empty mapping on the empty
string, raises a validation error exactly when the (non-empty) input's comma
token count is odd, and otherwise builds the dict pairing each even-indexed
token with the following token; the label-filtered listing returns exactly
the objects whose labels are a superset of the filter, and the empty filter
returns everything. -/
theorem claim_C6 :
    _get_labels_dict "" = .ok []
    ∧ (∀ s : String, s ≠ "" → (splitComma s).length % 2 = 1 →
        _get_labels_dict s = .error "Uneven key-value label pairs were entered")
    ∧ (∀ s : String, s ≠ "" → (splitComma s).length % 2 = 0 →
        _get_labels_dict s =
          .ok ((pairsOf (splitComma s)).foldl (fun d p => dictSet d p.1 p.2) []))
    ∧ (∀ (l : List String) (i : Nat) (a b : String),
        l[2 * i]? = some a → l[2 * i + 1]? = some b →
        (pairsOf l)[i]? = some (a, b))
    ∧ (∀ (ents : List EntityDef) (fil : List (String × String)) (e : EntityDef),
        e ∈ list_entities ents fil ↔ e ∈ ents ∧ labelsMatch fil e.labels = true)
    ∧ (∀ ents : List EntityDef, list_entities ents [] = ents) := by
  refine ⟨rfl, ?_, ?_, pairsOf_get, ?_, ?_⟩
  · intro s hs hodd
    simp [_get_labels_dict, hs, hodd]
  · intro s hs heven
    simp [_get_labels_dict, hs, heven]
  · intro ents fil e
    simp [list_entities, List.mem_filter]
  · intro ents
    simp [list_entities, labelsMatch]

/-- Claim C6 witness: concrete evaluations — empty string, an odd
three-token input, a valid two-token input, and the label filter keeping an
entity whose labels contain the requested pair. -/
theorem claim_C6_witness :
    _get_labels_dict "" = .ok []
    ∧ _get_labels_dict "team,x,extra" =
      .error "Uneven key-value label pairs were entered"
    ∧ _get_labels_dict "team,x" = .ok [("team", "x")]
    ∧ c5Ent ∈ list_entities [c5Ent] [("team", "x")] := by
  refine ⟨claim_C6.1, ?_, ?_, ?_⟩
  · exact claim_C6.2.1 "team,x,extra" (by decide) (by decide)
  · exact (claim_C6.2.2.1 "team,x" (by decide) (by decide)).trans (by rfl)
  · exact (claim_C6.2.2.2.2.1 [c5Ent] [("team", "x")] c5Ent).mpr
      ⟨List.mem_cons_self c5Ent [], by decide⟩

end Feast
